import Mathlib

/-!
Verification of the poker-test program in `app.py`.

The program classifies the decimal digits of pseudo-random numbers in
`[0,1)` into poker-hand categories, tallies observed frequencies, and
compares them with expected frequencies through a chi-squared statistic.

Real numbers are embedded as `ℚ` (exact arithmetic in place of floats),
Python digit strings as `List ℕ` (one entry per character), and the
dictionaries of the program as association lists or functions, as noted
on each definition.
-/

/-- Constant `CHI2_CRITICO_95_G6 = 12.5916` of the source. -/
def CHI2_CRITICO_95_G6 : ℚ := 125916 / 10000

/-- The fixed probability table `PROBS` of the source, as an association
list in the source's key order. -/
def PROBS : List (String × ℚ) :=
  [("todos_distintos", 3024 / 10000),
   ("un_par",          5040 / 10000),
   ("dos_pares",       1080 / 10000),
   ("tercia",           720 / 10000),
   ("full_house",        90 / 10000),
   ("poker",             45 / 10000),
   ("quintilla",          1 / 10000)]

/-- The keys of `PROBS` (`PROBS.keys()` in the source): the seven
five-digit poker categories, in dict order. -/
def PROBS_KEYS : List String := PROBS.map Prod.fst

/-- Dict lookup `PROBS[cat]` (0 for an absent key, which the source
never queries). -/
def probOf (cat : String) : ℚ :=
  (((PROBS.find? (fun x => x.1 == cat)).map Prod.snd).getD 0)

/-- Decimal digits of `n`, most significant first (`[]` for `0`). -/
def digitsMSD (n : ℕ) : List ℕ := (Nat.digits 10 n).reverse

/-- Python's format `f"{n:0{k}d}"` as a digit list: the decimal
representation of `n`, left-padded with zeros to width at least `k`. -/
def formatPadded (n k : ℕ) : List ℕ :=
  List.replicate (k - (digitsMSD n).length) 0 ++ digitsMSD n

/-- `extraer_digitos` of the source: `n = int(u * 10 ** k)` followed by
zero-padded formatting.  Python's `int` truncates toward zero, which on
the contract domain `u ≥ 0` is the floor. -/
def extraer_digitos (u : ℚ) (k : ℕ := 5) : List ℕ :=
  formatPadded (⌊u * 10 ^ k⌋).toNat k

/-- Python's `sorted(l, reverse=True)` on a list of naturals. -/
def sortDesc (l : List ℕ) : List ℕ := l.insertionSort (fun a b => b ≤ a)

/-- `sorted(Counter(digitos).values(), reverse=True)` of the source: the
multiplicities of the distinct digits, in descending order. -/
def rep_pattern (digitos : List ℕ) : List ℕ :=
  sortDesc (digitos.dedup.map (fun d => digitos.count d))

/-- The seven repetition patterns tested by the source's lookup chain,
in the source's order. -/
def PATTERNS : List (List ℕ) :=
  [[1, 1, 1, 1, 1], [2, 1, 1, 1], [2, 2, 1], [3, 1, 1], [3, 2], [4, 1], [5]]

/-- `clasificar_poker` of the source: the if-chain over the repetition
pattern, with the literal fallback return value `"otra"`. -/
def clasificar_poker (digitos : List ℕ) : String :=
  let rep := rep_pattern digitos
  if rep = [1, 1, 1, 1, 1] then "todos_distintos"
  else if rep = [2, 1, 1, 1] then "un_par"
  else if rep = [2, 2, 1] then "dos_pares"
  else if rep = [3, 1, 1] then "tercia"
  else if rep = [3, 2] then "full_house"
  else if rep = [4, 1] then "poker"
  else if rep = [5] then "quintilla"
  else "otra"

/-- The classification loop of `prueba_poker` (step 1 of the source):
append `(u, clasificar_poker(extraer_digitos(u, k)))` for each input, in
input order. -/
def clasificarLista (numeros : List ℚ) (k : ℕ) : List (ℚ × String) :=
  numeros.foldl (fun acc u => acc ++ [(u, clasificar_poker (extraer_digitos u k))]) []

/-- The category stream `(cat for _, cat in clasificaciones)` of the
source. -/
def categoriasDe (numeros : List ℚ) (k : ℕ) : List String :=
  (clasificarLista numeros k).map Prod.snd

/-- The key list of the observed-count dict: `Counter(cats)` lists keys
in first-occurrence order, then `setdefault` appends the missing
`PROBS` keys in table order. -/
def clavesConteo (cats : List String) : List String :=
  cats.dedup ++ PROBS_KEYS.filter (fun c => decide (¬ c ∈ cats.dedup))

/-- The dict `prueba_poker` returns.  Dicts keyed by the category set are
modelled as functions (`esperadas`, `contribuciones`); the observed-count
dict keeps its key list (`observadas`) because its key set is itself at
issue. -/
structure ResultadoPoker where
  clasificaciones : List (ℚ × String)
  observadas : List (String × ℕ)
  esperadas : String → ℚ
  contribuciones : String → ℚ
  chi2 : ℚ
  gl : ℕ

/-- `prueba_poker` of the source: classify every number, tally observed
counts over the `Counter`-plus-`setdefault` key list, take expected
counts `n * p` from `PROBS`, guarded chi-squared contributions, their
sum, and `gl = len(PROBS) - 1`. -/
def prueba_poker (numeros : List ℚ) (k : ℕ := 5) : ResultadoPoker :=
  let n := numeros.length
  let clasificaciones := clasificarLista numeros k
  let cats := clasificaciones.map Prod.snd
  let observadas := (clavesConteo cats).map (fun c => (c, cats.count c))
  let esperadas := fun cat => (n : ℚ) * probOf cat
  let contribuciones := fun cat =>
    if 0 < esperadas cat then (esperadas cat - (cats.count cat : ℚ)) ^ 2 / esperadas cat
    else 0
  { clasificaciones := clasificaciones
    observadas := observadas
    esperadas := esperadas
    contribuciones := contribuciones
    chi2 := (PROBS_KEYS.map contribuciones).sum
    gl := PROBS.length - 1 }

/-- Dict lookup `conteo[cat]` on the observed-count association list. -/
def obtenerObservada (r : ResultadoPoker) (cat : String) : ℕ :=
  (((r.observadas.find? (fun x => x.1 == cat)).map Prod.snd).getD 0)

/-- The pass/fail decision of `imprimir_resultado`: the source takes the
pass branch ("NO se rechaza la hipótesis nula") exactly when
`chi2 <= chi2_crit`, and the fail branch otherwise. -/
def imprimir_resultado_decision (chi2 chi2_crit : ℚ) : Bool := chi2 ≤ chi2_crit

instance : IsTotal ℕ (fun a b => b ≤ a) := ⟨fun a b => le_total b a⟩

instance : IsTrans ℕ (fun a b => b ≤ a) := ⟨fun _ _ _ h h2 => le_trans h2 h⟩

/-- A descending list of positive naturals summing to 5 is one of the
seven integer partitions of 5. -/
theorem partition5 (l : List ℕ) (hs : l.Sorted (fun a b => b ≤ a))
    (hpos : ∀ x ∈ l, 0 < x) (hsum : l.sum = 5) :
    l = [1, 1, 1, 1, 1] ∨ l = [2, 1, 1, 1] ∨ l = [2, 2, 1] ∨ l = [3, 1, 1] ∨
      l = [3, 2] ∨ l = [4, 1] ∨ l = [5] := by
  rcases l with _ | ⟨a, _ | ⟨b, _ | ⟨c, _ | ⟨d, _ | ⟨e, _ | ⟨f, t⟩⟩⟩⟩⟩⟩ <;>
    simp_all [List.sorted_cons] <;> omega

/-- The repetition pattern is sorted in descending order. -/
theorem rep_pattern_sorted (s : List ℕ) : (rep_pattern s).Sorted (fun a b => b ≤ a) :=
  List.sorted_insertionSort _ _

/-- Every multiplicity in the repetition pattern is positive. -/
theorem rep_pattern_pos (s : List ℕ) : ∀ x ∈ rep_pattern s, 0 < x := by
  intro x hx
  rw [rep_pattern, sortDesc, List.mem_insertionSort] at hx
  obtain ⟨d, hd, rfl⟩ := List.mem_map.mp hx
  rw [List.mem_dedup] at hd
  exact List.count_pos_iff.mpr hd

/-- The multiplicities of the repetition pattern sum to the string's
length. -/
theorem rep_pattern_sum (s : List ℕ) : (rep_pattern s).sum = s.length := by
  rw [rep_pattern, sortDesc, (List.perm_insertionSort _ _).sum_eq]
  exact List.sum_map_count_dedup_eq_length s

/-- The repetition pattern of a 5-character string is one of the seven
table patterns. -/
theorem rep_pattern_cases (s : List ℕ) (h5 : s.length = 5) :
    rep_pattern s = [1, 1, 1, 1, 1] ∨ rep_pattern s = [2, 1, 1, 1] ∨
      rep_pattern s = [2, 2, 1] ∨ rep_pattern s = [3, 1, 1] ∨
      rep_pattern s = [3, 2] ∨ rep_pattern s = [4, 1] ∨ rep_pattern s = [5] :=
  partition5 _ (rep_pattern_sorted s) (rep_pattern_pos s)
    (by rw [rep_pattern_sum, h5])

/-- On a 5-character string the classifier lands in the category set. -/
theorem clasificar_poker_mem (s : List ℕ) (h5 : s.length = 5) :
    clasificar_poker s ∈ PROBS_KEYS := by
  rcases rep_pattern_cases s h5 with h | h | h | h | h | h | h <;>
    · simp only [clasificar_poker, h]
      decide

/-- C1: for every digit string of length 5 (each character a decimal
digit), `clasificar_poker` returns exactly one category from the closed
five-digit category set, and the descending multiplicity pattern of the
string matches exactly one entry of the fixed pattern table. -/
theorem clasificar_poker_total (s : List ℕ) (h5 : s.length = 5)
    (hdig : ∀ d ∈ s, d < 10) :
    clasificar_poker s ∈ PROBS_KEYS ∧
      ∃! p, p ∈ PATTERNS ∧ rep_pattern s = p := by
  refine ⟨clasificar_poker_mem s h5, rep_pattern s, ⟨?_, rfl⟩, ?_⟩
  · rcases rep_pattern_cases s h5 with h | h | h | h | h | h | h <;>
      · rw [h]; decide
  · rintro p ⟨hp, hps⟩
    exact hps.symm

/-- C1 witness: the theorem instantiated on the concrete string 11223. -/
theorem clasificar_poker_total_witness :
    ([1, 1, 2, 2, 3] : List ℕ).length = 5 ∧ (∀ d ∈ ([1, 1, 2, 2, 3] : List ℕ), d < 10) ∧
      (clasificar_poker [1, 1, 2, 2, 3] ∈ PROBS_KEYS ∧
        ∃! p, p ∈ PATTERNS ∧ rep_pattern [1, 1, 2, 2, 3] = p) :=
  ⟨by decide, by decide, clasificar_poker_total [1, 1, 2, 2, 3] (by decide) (by decide)⟩

/-- C2 counterexample: on the out-of-contract string 012345 (length 6,
pattern [1,1,1,1,1,1] matching no table entry) the source does not fail:
it silently returns the sentinel string "otra", which is outside the
category set. -/
theorem clasificar_poker_no_failure :
    clasificar_poker [0, 1, 2, 3, 4, 5] = "otra" ∧ "otra" ∉ PROBS_KEYS := by decide

/-- C2 (amended): when the repetition pattern matches no entry of the
table, `clasificar_poker` returns the sentinel "otra" — it never defaults
to one of the seven real categories, but it does not raise an error
either. -/
theorem clasificar_poker_otra (s : List ℕ) (h : rep_pattern s ∉ PATTERNS) :
    clasificar_poker s = "otra" ∧ "otra" ∉ PROBS_KEYS := by
  refine ⟨?_, by decide⟩
  simp only [PATTERNS, List.mem_cons, List.not_mem_nil, or_false, not_or] at h
  obtain ⟨h1, h2, h3, h4, h5, h6, h7⟩ := h
  simp [clasificar_poker, h1, h2, h3, h4, h5, h6, h7]

/-- C2 witness: the amended theorem instantiated on the string 012345. -/
theorem clasificar_poker_otra_witness :
    rep_pattern [0, 1, 2, 3, 4, 5] ∉ PATTERNS ∧
      (clasificar_poker [0, 1, 2, 3, 4, 5] = "otra" ∧ "otra" ∉ PROBS_KEYS) :=
  ⟨by decide, clasificar_poker_otra [0, 1, 2, 3, 4, 5] (by decide)⟩

/-- C8: classification of the three specific strings named by the spec:
"00000" is quintilla via pattern [5], "12345" is todos_distintos via
pattern [1,1,1,1,1], and "11223" is dos_pares via pattern [2,2,1]. -/
theorem clasificar_poker_examples :
    clasificar_poker [0, 0, 0, 0, 0] = "quintilla" ∧ rep_pattern [0, 0, 0, 0, 0] = [5] ∧
      clasificar_poker [1, 2, 3, 4, 5] = "todos_distintos" ∧
      rep_pattern [1, 2, 3, 4, 5] = [1, 1, 1, 1, 1] ∧
      clasificar_poker [1, 1, 2, 2, 3] = "dos_pares" ∧
      rep_pattern [1, 1, 2, 2, 3] = [2, 2, 1] := by decide

/-- C3 counterexample: with the statistic exactly equal to the critical
value the source takes the PASS branch ("NO se rechaza"), because its
test is `chi2 <= chi2_crit`; the claim says equality must fail. -/
theorem imprimir_resultado_decision_at_equality :
    imprimir_resultado_decision CHI2_CRITICO_95_G6 CHI2_CRITICO_95_G6 = true := by
  simp [imprimir_resultado_decision]

/-- C3 (amended): the verdict uses non-strict comparison as the
tie-break: the pass branch is taken exactly when statistic ≤ critical
value, so a statistic exactly equal to the critical value passes, and
statistic > critical value fails. -/
theorem imprimir_resultado_decision_le (x c : ℚ) :
    (imprimir_resultado_decision x c = true ↔ x ≤ c) ∧
      imprimir_resultado_decision c c = true := by
  constructor
  · simp [imprimir_resultado_decision]
  · simp [imprimir_resultado_decision]

/-- On the contract domain the scaled floor is below `10 ^ k`. -/
theorem floor_scaled_lt {u : ℚ} (h0 : 0 ≤ u) (h1 : u < 1) (k : ℕ) :
    (⌊u * 10 ^ k⌋).toNat < 10 ^ k := by
  have hp : (0 : ℚ) < 10 ^ k := by positivity
  have hlt : ⌊u * 10 ^ k⌋ < (10 : ℤ) ^ k := by
    rw [Int.floor_lt]
    push_cast
    calc u * 10 ^ k < 1 * 10 ^ k := mul_lt_mul_of_pos_right h1 hp
      _ = 10 ^ k := one_mul _
  have hcast : ((10 ^ k : ℕ) : ℤ) = (10 : ℤ) ^ k := by push_cast; ring
  have hppos : 0 < 10 ^ k := Nat.pow_pos (by norm_num)
  omega

/-- `m < 10 ^ k` bounds the decimal digit count of `m` by `k`. -/
theorem digitsMSD_length_le {m k : ℕ} (h : m < 10 ^ k) :
    (digitsMSD m).length ≤ k := by
  rw [digitsMSD, List.length_reverse]
  rcases Nat.eq_zero_or_pos m with rfl | hm
  · simp
  by_contra hlt
  push_neg at hlt
  have h2 : 10 ^ (Nat.digits 10 m).length ≤ 10 * m :=
    Nat.base_pow_length_digits_le 10 m (by norm_num) (by omega)
  have h3 : 10 ^ (k + 1) ≤ 10 ^ (Nat.digits 10 m).length :=
    Nat.pow_le_pow_right (by norm_num) hlt
  have h4 : 10 * 10 ^ k ≤ 10 * m := by
    calc 10 * 10 ^ k = 10 ^ (k + 1) := by ring
      _ ≤ 10 ^ (Nat.digits 10 m).length := h3
      _ ≤ 10 * m := h2
  omega

/-- For `m < 10 ^ k` the zero-padded format has width exactly `k`. -/
theorem formatPadded_length {m k : ℕ} (h : m < 10 ^ k) :
    (formatPadded m k).length = k := by
  have hle := digitsMSD_length_le h
  rw [formatPadded, List.length_append, List.length_replicate]
  omega

/-- Every entry of the zero-padded format is a decimal digit. -/
theorem formatPadded_digits_lt (m k : ℕ) : ∀ d ∈ formatPadded m k, d < 10 := by
  intro d hd
  rw [formatPadded] at hd
  rcases List.mem_append.mp hd with h | h
  · rw [List.eq_of_mem_replicate h]; norm_num
  · rw [digitsMSD, List.mem_reverse] at h
    exact Nat.digits_lt_base (by norm_num) h

/-- Reading a run of zero digits back gives zero. -/
theorem ofDigits_replicate_zero (b j : ℕ) :
    Nat.ofDigits b (List.replicate j 0) = 0 := by
  induction j with
  | zero => simp
  | succ n ih => simp [List.replicate_succ, Nat.ofDigits_cons, ih]

/-- Reading the zero-padded format back (least significant digit first)
recovers `m`: the padding changes no value. -/
theorem ofDigits_formatPadded (m k : ℕ) :
    Nat.ofDigits 10 (formatPadded m k).reverse = m := by
  rw [formatPadded, List.reverse_append, digitsMSD, List.reverse_reverse,
    Nat.ofDigits_append, Nat.ofDigits_digits, List.reverse_replicate,
    ofDigits_replicate_zero]
  ring

/-- On the contract domain the extracted string has length exactly `k`. -/
theorem extraer_digitos_length (u : ℚ) (k : ℕ) (h0 : 0 ≤ u) (h1 : u < 1) :
    (extraer_digitos u k).length = k :=
  formatPadded_length (floor_scaled_lt h0 h1 k)

/-- C5: for every value in `[0,1)`, digit extraction returns a string of
exactly `k` decimal characters whose value, read back as a decimal
numeral, is the truncation (integer floor) of `value * 10 ^ k` — the
zero padding on the left adds no value and rounding never occurs. -/
theorem extraer_digitos_spec (u : ℚ) (k : ℕ) (h0 : 0 ≤ u) (h1 : u < 1) :
    (extraer_digitos u k).length = k ∧
      (∀ d ∈ extraer_digitos u k, d < 10) ∧
      Nat.ofDigits 10 (extraer_digitos u k).reverse = (⌊u * 10 ^ k⌋).toNat :=
  ⟨extraer_digitos_length u k h0 h1, formatPadded_digits_lt _ _,
    ofDigits_formatPadded _ _⟩

/-- C5 witness: a value whose decimal expansion begins 0.061409 yields,
with k = 5, the digit string 06140 (truncation), not 06141 (rounding);
the theorem is instantiated at that value. -/
theorem extraer_digitos_spec_witness :
    (0 : ℚ) ≤ 61409 / 1000000 ∧ (61409 / 1000000 : ℚ) < 1 ∧
      extraer_digitos (61409 / 1000000) 5 = [0, 6, 1, 4, 0] ∧
      ((extraer_digitos (61409 / 1000000) 5).length = 5 ∧
        (∀ d ∈ extraer_digitos (61409 / 1000000) 5, d < 10) ∧
        Nat.ofDigits 10 (extraer_digitos (61409 / 1000000) 5).reverse =
          (⌊(61409 / 1000000 : ℚ) * 10 ^ 5⌋).toNat) := by
  refine ⟨by norm_num, by norm_num, ?_,
    extraer_digitos_spec (61409 / 1000000) 5 (by norm_num) (by norm_num)⟩
  have h : (⌊(61409 / 1000000 : ℚ) * 10 ^ 5⌋).toNat = 6140 := by
    norm_num [Rat.floor_def]; rfl
  rw [extraer_digitos, h]
  simp [formatPadded, digitsMSD, Nat.digits_def']

/-- Folding appends of singletons is a map. -/
theorem foldl_append_eq_map {α β : Type} (f : α → β) (l : List α) (acc : List β) :
    l.foldl (fun a u => a ++ [f u]) acc = acc ++ l.map f := by
  induction l generalizing acc with
  | nil => simp
  | cons x t ih => simp [List.foldl_cons, ih]

/-- The classification loop builds the classification list in input
order. -/
theorem clasificarLista_eq_map (numeros : List ℚ) (k : ℕ) :
    clasificarLista numeros k =
      numeros.map (fun u => (u, clasificar_poker (extraer_digitos u k))) := by
  simpa [clasificarLista] using
    foldl_append_eq_map (fun u => (u, clasificar_poker (extraer_digitos u k))) numeros []

/-- The category stream is the classification of each input, in order. -/
theorem categoriasDe_eq (numeros : List ℚ) (k : ℕ) :
    categoriasDe numeros k =
      numeros.map (fun u => clasificar_poker (extraer_digitos u k)) := by
  rw [categoriasDe, clasificarLista_eq_map, List.map_map]
  rfl

/-- The classification list of the returned record, characterised. -/
theorem prueba_poker_clasificaciones (numeros : List ℚ) (k : ℕ) :
    (prueba_poker numeros k).clasificaciones =
      numeros.map (fun u => (u, clasificar_poker (extraer_digitos u k))) :=
  clasificarLista_eq_map numeros k

/-- C6 counterexample: `prueba_poker` called with the invalid digit
length k = 2 is not rejected: the input 0.5 is processed (two digits
"50" are extracted and classified, as the sentinel "otra") and a full
record, with gl = 6, is produced. -/
theorem prueba_poker_no_validation :
    (prueba_poker [(1 / 2 : ℚ)] 2).clasificaciones = [((1 / 2 : ℚ), "otra")] ∧
      (prueba_poker [(1 / 2 : ℚ)] 2).gl = 6 := by
  refine ⟨?_, rfl⟩
  rw [prueba_poker_clasificaciones]
  have h : (⌊(1 / 2 : ℚ) * 10 ^ 2⌋).toNat = 50 := by
    norm_num [Rat.floor_def]; rfl
  have h2 : extraer_digitos (1 / 2) 2 = [5, 0] := by
    rw [extraer_digitos, h]
    simp [formatPadded, digitsMSD, Nat.digits_def']
  simp only [List.map_cons, List.map_nil, h2]
  rw [show clasificar_poker [5, 0] = "otra" from by decide]

/-- C6 (amended): `prueba_poker` performs no validation of the digit
length at all: for every k, valid or not, it processes the whole input
sequence (one classification per input, in order) and returns a complete
record with gl = 6; nothing is rejected. -/
theorem prueba_poker_processes_any_k (numeros : List ℚ) (k : ℕ) :
    (prueba_poker numeros k).clasificaciones =
      numeros.map (fun u => (u, clasificar_poker (extraer_digitos u k))) ∧
      (prueba_poker numeros k).clasificaciones.length = numeros.length ∧
      (prueba_poker numeros k).gl = 6 := by
  refine ⟨clasificarLista_eq_map numeros k, ?_, rfl⟩
  rw [prueba_poker_clasificaciones]
  simp

/-- C9: `prueba_poker` is referentially transparent: it is a pure
function of its argument sequence and digit length, so two calls on
identical inputs return identical records, and the classification list
is a per-element map over the unchanged input sequence, in input
order. -/
theorem prueba_poker_pure (n1 n2 : List ℚ) (k1 k2 : ℕ) (hn : n1 = n2) (hk : k1 = k2) :
    prueba_poker n1 k1 = prueba_poker n2 k2 ∧
      (prueba_poker n1 k1).clasificaciones =
        n1.map (fun u => (u, clasificar_poker (extraer_digitos u k1))) := by
  subst hn
  subst hk
  exact ⟨rfl, prueba_poker_clasificaciones n1 k1⟩

/-- C9 witness: the theorem instantiated on a concrete repeated call. -/
theorem prueba_poker_pure_witness :
    ([(0 : ℚ)] = [(0 : ℚ)]) ∧ (5 = 5) ∧
      (prueba_poker [(0 : ℚ)] 5 = prueba_poker [(0 : ℚ)] 5 ∧
        (prueba_poker [(0 : ℚ)] 5).clasificaciones =
          [(0 : ℚ)].map (fun u => (u, clasificar_poker (extraer_digitos u 5)))) :=
  ⟨rfl, rfl, prueba_poker_pure [0] [0] 5 5 rfl rfl⟩

/-- C10: the digit-length argument k influences only digit extraction:
for every k the record's degrees of freedom are 6 and its expected
counts come from the fixed 7-category 5-digit table `PROBS`, identical
to those computed for any other digit length. -/
theorem prueba_poker_k_independent (numeros : List ℚ) (k k2 : ℕ) :
    (prueba_poker numeros k).gl = 6 ∧
      (∀ cat, (prueba_poker numeros k).esperadas cat =
        (numeros.length : ℚ) * probOf cat) ∧
      (prueba_poker numeros k).esperadas = (prueba_poker numeros k2).esperadas :=
  ⟨rfl, fun _ => rfl, rfl⟩

/-- Sums of pointwise sums split. -/
theorem sum_map_add_nat {α : Type} (L : List α) (f g : α → ℕ) :
    (L.map fun x => f x + g x).sum = (L.map f).sum + (L.map g).sum := by
  induction L with
  | nil => simp
  | cons x t ih =>
    simp only [List.map_cons, List.sum_cons, ih]
    omega

/-- Over a duplicate-free list containing `c`, the indicator of `c` sums
to one. -/
theorem sum_map_ite_one {α : Type} [DecidableEq α] (c : α) :
    ∀ (L : List α), L.Nodup → c ∈ L →
      (L.map fun x => if x = c then (1 : ℕ) else 0).sum = 1
  | [], _, hc => absurd hc (List.not_mem_nil c)
  | x :: t, hnd, hc => by
    rw [List.nodup_cons] at hnd
    rcases List.mem_cons.mp hc with rfl | hct
    · have h0 : (t.map fun y => if y = c then (1 : ℕ) else 0).sum = 0 := by
        apply List.sum_eq_zero
        intro z hz
        obtain ⟨y, hy, rfl⟩ := List.mem_map.mp hz
        have hyx : y ≠ c := fun h => hnd.1 (h ▸ hy)
        simp [hyx]
      simp only [List.map_cons, List.sum_cons, if_pos rfl, h0]
      simp
    · have hx : x ≠ c := fun h => hnd.1 (h.symm ▸ hct)
      simp only [List.map_cons, List.sum_cons, if_neg hx]
      rw [sum_map_ite_one c t hnd.2 hct]

/-- Counting every key of a duplicate-free list that covers `cats`
accounts for every element: the counts sum to the length. -/
theorem sum_map_count_eq_length (L : List String) (hnd : L.Nodup) :
    ∀ (cats : List String), (∀ c ∈ cats, c ∈ L) →
      (L.map fun c => cats.count c).sum = cats.length
  | [], _ => by simp
  | c :: cs, hsub => by
    have h1 : ∀ x ∈ cs, x ∈ L := fun x hx => hsub x (List.mem_cons_of_mem _ hx)
    have hc : c ∈ L := hsub c (List.mem_cons_self c cs)
    have hmapeq : (L.map fun x => (c :: cs).count x) =
        L.map fun x => cs.count x + if x = c then 1 else 0 := by
      apply List.map_congr_left
      intro x hx
      rw [List.count_cons]
      congr 1
      rcases Decidable.em (x = c) with h | h
      · simp [h]
      · simp [h, Ne.symm h]
    rw [hmapeq, sum_map_add_nat, sum_map_count_eq_length L hnd cs h1,
      sum_map_ite_one c L hnd hc]
    simp [List.length_cons]

/-- The seven category names are pairwise distinct. -/
theorem PROBS_KEYS_nodup : PROBS_KEYS.Nodup := by decide

/-- The observed-count key list never repeats a key. -/
theorem clavesConteo_nodup (cats : List String) : (clavesConteo cats).Nodup := by
  rw [clavesConteo]
  apply List.Nodup.append (List.nodup_dedup cats) (PROBS_KEYS_nodup.filter _)
  intro x hx hxf
  have h2 := (List.mem_filter.mp hxf).2
  simp only [decide_eq_true_eq] at h2
  exact h2 hx

/-- Every table category is a key of the observed-count dict (the
`setdefault` loop). -/
theorem mem_clavesConteo_of_probs (cats : List String) :
    ∀ cat ∈ PROBS_KEYS, cat ∈ clavesConteo cats := by
  intro cat hcat
  rw [clavesConteo]
  rcases Decidable.em (cat ∈ cats.dedup) with h | h
  · exact List.mem_append_left _ h
  · exact List.mem_append_right _ (List.mem_filter.mpr ⟨hcat, by simpa using h⟩)

/-- Every occurring category is a key of the observed-count dict (the
`Counter`). -/
theorem mem_clavesConteo_of_mem (cats : List String) :
    ∀ c ∈ cats, c ∈ clavesConteo cats := fun _ hc =>
  List.mem_append_left _ (List.mem_dedup.mpr hc)

/-- The observed-count entries of the returned record, characterised. -/
theorem prueba_poker_observadas (numeros : List ℚ) (k : ℕ) :
    (prueba_poker numeros k).observadas =
      (clavesConteo (categoriasDe numeros k)).map
        (fun c => (c, (categoriasDe numeros k).count c)) := rfl

/-- With the five-digit extraction on contract inputs, every key of the
observed-count dict is a table category. -/
theorem claves_subset_probs (numeros : List ℚ)
    (hrange : ∀ u ∈ numeros, 0 ≤ u ∧ u < 1) :
    ∀ cat ∈ clavesConteo (categoriasDe numeros 5), cat ∈ PROBS_KEYS := by
  intro cat hcat
  rw [clavesConteo] at hcat
  rcases List.mem_append.mp hcat with h | h
  · rw [List.mem_dedup, categoriasDe_eq] at h
    obtain ⟨u, hu, rfl⟩ := List.mem_map.mp h
    obtain ⟨h0, h1⟩ := hrange u hu
    exact clasificar_poker_mem _ (extraer_digitos_length u 5 h0 h1)
  · exact (List.mem_filter.mp h).1

/-- C4: for every input sequence of contract values, the observed-count
mapping of `prueba_poker` has exactly the seven categories as keys — in
particular every category is present, absent ones with count 0 — and
the observed counts over all categories sum to the number of inputs. -/
theorem prueba_poker_observadas_spec (numeros : List ℚ)
    (hrange : ∀ u ∈ numeros, 0 ≤ u ∧ u < 1) :
    (∀ cat ∈ PROBS_KEYS, cat ∈ (prueba_poker numeros 5).observadas.map Prod.fst) ∧
      (∀ cat ∈ (prueba_poker numeros 5).observadas.map Prod.fst, cat ∈ PROBS_KEYS) ∧
      ((prueba_poker numeros 5).observadas.map Prod.snd).sum = numeros.length := by
  have hfst : (prueba_poker numeros 5).observadas.map Prod.fst
      = clavesConteo (categoriasDe numeros 5) := by
    rw [prueba_poker_observadas, List.map_map]
    exact List.map_id _
  have hsnd : (prueba_poker numeros 5).observadas.map Prod.snd
      = (clavesConteo (categoriasDe numeros 5)).map
          (fun c => (categoriasDe numeros 5).count c) := by
    rw [prueba_poker_observadas, List.map_map]
    rfl
  refine ⟨?_, ?_, ?_⟩
  · rw [hfst]
    exact mem_clavesConteo_of_probs _
  · rw [hfst]
    exact claves_subset_probs numeros hrange
  · rw [hsnd, sum_map_count_eq_length _ (clavesConteo_nodup _) _ (mem_clavesConteo_of_mem _)]
    rw [categoriasDe_eq]
    simp

/-- C4 witness: the theorem instantiated on the one-element sequence
[0.0]. -/
theorem prueba_poker_observadas_spec_witness :
    (∀ u ∈ [(0 : ℚ)], 0 ≤ u ∧ u < 1) ∧
      ((∀ cat ∈ PROBS_KEYS, cat ∈ (prueba_poker [(0 : ℚ)] 5).observadas.map Prod.fst) ∧
        (∀ cat ∈ (prueba_poker [(0 : ℚ)] 5).observadas.map Prod.fst, cat ∈ PROBS_KEYS) ∧
        ((prueba_poker [(0 : ℚ)] 5).observadas.map Prod.snd).sum = [(0 : ℚ)].length) :=
  ⟨by norm_num, prueba_poker_observadas_spec [0] (by norm_num)⟩

/-- Looking a table category up in the observed-count dict yields the
occurrence count of that category among the classifications. -/
theorem obtenerObservada_eq (numeros : List ℚ) (k : ℕ) (cat : String)
    (hcat : cat ∈ PROBS_KEYS) :
    obtenerObservada (prueba_poker numeros k) cat =
      (categoriasDe numeros k).count cat := by
  have hmem : (cat, (categoriasDe numeros k).count cat)
      ∈ (prueba_poker numeros k).observadas := by
    rw [prueba_poker_observadas]
    exact List.mem_map_of_mem _ (mem_clavesConteo_of_probs _ cat hcat)
  rw [obtenerObservada]
  rcases hfind : (prueba_poker numeros k).observadas.find? (fun x => x.1 == cat)
    with _ | x
  · exfalso
    exact List.find?_eq_none.mp hfind _ hmem (by simp)
  · have hpx := List.find?_some hfind
    have hxmem := List.mem_of_find?_eq_some hfind
    rw [prueba_poker_observadas] at hxmem
    obtain ⟨c, hcL, rfl⟩ := List.mem_map.mp hxmem
    simp only [beq_iff_eq] at hpx
    subst hpx
    rw [hfind]
    simp

/-- The expected counts of the returned record, characterised. -/
theorem prueba_poker_esperadas (numeros : List ℚ) (k : ℕ) :
    (prueba_poker numeros k).esperadas =
      fun cat => (numeros.length : ℚ) * probOf cat := rfl

/-- The chi-squared contributions of the returned record,
characterised. -/
theorem prueba_poker_contribuciones (numeros : List ℚ) (k : ℕ) :
    (prueba_poker numeros k).contribuciones = fun cat =>
      if 0 < (numeros.length : ℚ) * probOf cat then
        ((numeros.length : ℚ) * probOf cat - ((categoriasDe numeros k).count cat : ℚ)) ^ 2
          / ((numeros.length : ℚ) * probOf cat)
      else 0 := rfl

/-- The statistic of the returned record is the sum of the per-category
contributions over the table categories. -/
theorem prueba_poker_chi2 (numeros : List ℚ) (k : ℕ) :
    (prueba_poker numeros k).chi2 =
      (PROBS_KEYS.map (prueba_poker numeros k).contribuciones).sum := rfl

/-- C7: for every table category the chi-squared contribution equals
(observed − expected)² / expected when the expected count is strictly
positive, and is 0 when the expected count is 0; in particular for the
empty sequence every expected count is 0 and the total statistic is 0,
with no division by zero performed. -/
theorem contribuciones_spec (numeros : List ℚ) (k : ℕ) (cat : String)
    (hcat : cat ∈ PROBS_KEYS) :
    (0 < (prueba_poker numeros k).esperadas cat →
      (prueba_poker numeros k).contribuciones cat =
        ((obtenerObservada (prueba_poker numeros k) cat : ℚ) -
            (prueba_poker numeros k).esperadas cat) ^ 2
          / (prueba_poker numeros k).esperadas cat) ∧
      ((prueba_poker numeros k).esperadas cat = 0 →
        (prueba_poker numeros k).contribuciones cat = 0) ∧
      (numeros = [] →
        (prueba_poker numeros k).esperadas cat = 0 ∧
          (prueba_poker numeros k).chi2 = 0) := by
  refine ⟨?_, ?_, ?_⟩
  · intro he
    rw [prueba_poker_esperadas] at he
    rw [prueba_poker_contribuciones, prueba_poker_esperadas,
      obtenerObservada_eq numeros k cat hcat]
    simp only
    rw [if_pos he]
    congr 1
    ring
  · intro he
    rw [prueba_poker_esperadas] at he
    simp only at he
    rw [prueba_poker_contribuciones]
    simp only
    rw [he]
    simp
  · rintro rfl
    refine ⟨by rw [prueba_poker_esperadas]; simp, ?_⟩
    rw [prueba_poker_chi2]
    apply List.sum_eq_zero
    intro x hx
    obtain ⟨c, hcL, rfl⟩ := List.mem_map.mp hx
    rw [prueba_poker_contribuciones]
    simp

/-- C7 witness: the empty-sequence part of the theorem instantiated at
the category quintilla. -/
theorem contribuciones_spec_witness :
    "quintilla" ∈ PROBS_KEYS ∧
      ((prueba_poker ([] : List ℚ) 5).esperadas "quintilla" = 0 ∧
        (prueba_poker ([] : List ℚ) 5).chi2 = 0) :=
  ⟨by decide, (contribuciones_spec [] 5 "quintilla" (by decide)).2.2 rfl⟩
